import Mathlib

/-!
Shallow embedding of the core pipeline of the `xander` staple-tracking
program: name normalization (`src/card_name.rs`), the cache-aside resolvers
(`src/staples/mod.rs::get_cached`, `src/checklist.rs::get_printings_cached`),
the staple aggregator (`src/staples/mod.rs::fetch`), the checklist builder and
ranking comparators (`src/checklist.rs`), the goldfish scraper skeleton
(`src/staples/goldfish.rs::scrape`) and the statistics scan
(`src/ui/stats.rs::calculate`).

Modelling conventions:
* Rust `f32` percentages are modelled as `Rat`; `f32::total_cmp` agrees with
  the numeric order on the finite, non-NaN values the program manipulates.
* `u8`/`u16`/`usize` counters are modelled as `Nat`; no claim depends on
  machine-integer overflow (counts stay far below any width bound).
* `HashMap` caches are modelled as association lists with first-match lookup
  and in-place replacing insert.
* `Uuid` card identifiers are modelled as `Nat`, `SetCode` as `String`.
* async effects (file IO, network) are modelled by explicit state passing:
  a resolver takes a fetch oracle and the current cache map and returns the
  value, the new cache map, and how many external fetches it performed.
-/

namespace Xander

/-- The five colors that can occur in a card's `colors` list, with the bit
values asserted by the `const_assert!`s in `src/ui/stats.rs`
(White = 1, Blue = 2, Black = 4, Red = 8, Green = 16). -/
inductive Color where
  | white
  | blue
  | black
  | red
  | green
deriving DecidableEq, Repr

/-- The `u8` discriminant of `scryfall::card::Color`, per the
`const_assert!`s in `src/ui/stats.rs`. -/
def Color.bits : Color → Nat
  | .white => 1
  | .blue => 2
  | .black => 4
  | .red => 8
  | .green => 16

/-- One entry of `scryfall::Card::card_faces`; the program reads only the
face's name and colors. -/
structure CardFace where
  name : String
  colors : Option (List Color)
deriving DecidableEq, Repr

/-- The fields of `scryfall::Card` the program reads: the stable id, the
full name, the color list, the faces of a multi-faced card, and the type
line. -/
structure Card where
  id : Nat
  name : String
  colors : Option (List Color)
  card_faces : Option (List CardFace)
  type_line : Option String
deriving DecidableEq, Repr

/-- `Metadata` from `src/staples/mod.rs`: popularity of a staple. -/
structure Metadata where
  percent_in_decks : Rat
  num_copies : Nat
deriving DecidableEq, Repr

/-- `Metadata::new`: missing fields default to 100% and 4 copies. -/
def Metadata.new (percent_in_decks : Option Rat) (num_copies : Option Nat) : Metadata :=
  { percent_in_decks := percent_in_decks.getD 100
    num_copies := num_copies.getD 4 }

/-- `Set` from `src/checklist.rs`: a printing's set code and display name. -/
structure Set where
  code : String
  name : String
deriving DecidableEq, Repr

/-! ## Name normalization (`src/card_name.rs`) -/

/-- `fix_lotr_accented_cards` from `src/card_name.rs`: the static table of
known transliteration mismatches; `none` when the name is not in the table. -/
def fix_lotr_accented_cards (card : String) : Option String :=
  if card = "Lorien Revealed" then some "Lórien Revealed"
  else if card = "Troll of Khazad-dum" then some "Troll of Khazad-dûm"
  else none

/-- The `From<&str> for &CName` conversion in `src/card_name.rs`: apply the
transliteration fix when it applies, else keep the name. -/
def cnameFrom (value : String) : String :=
  (fix_lotr_accented_cards value).getD value

/-- Both-ends whitespace trim on a character list, modelling `str::trim`. -/
def listTrim (l : List Char) : List Char :=
  ((l.dropWhile Char.isWhitespace).reverse.dropWhile Char.isWhitespace).reverse

/-- `trim_if_double_faced` from `src/card_name.rs`: at the first `/`, keep
the trimmed text before it; `none` when the name has no `/`. -/
def trim_if_double_faced (card : String) : Option String :=
  (card.data.findIdx? (· == '/')).map fun idx => String.mk (listTrim (card.data.take idx))

/-- `CName::trimming_double_faced`: trim at the first `/` when present. -/
def trimming_double_faced (card : String) : String :=
  (trim_if_double_faced card).getD card

/-! ## Association-list model of the JSON-backed `HashMap` caches -/

/-- First-match lookup in an association list (`HashMap::get`). -/
def lookupA {κ ν : Type} [DecidableEq κ] : List (κ × ν) → κ → Option ν
  | [], _ => none
  | (k, w) :: rest, key => if k = key then some w else lookupA rest key

/-- Replacing insert in an association list (`HashMap::insert`). -/
def insertA {κ ν : Type} [DecidableEq κ] (key : κ) (v : ν) : List (κ × ν) → List (κ × ν)
  | [] => [(key, v)]
  | (k, w) :: rest => if k = key then (key, v) :: rest else (k, w) :: insertA key v rest

/-! ## The two cache-aside resolvers -/

/-- The `fix_lotr_accented_cards` nested in `get_cached`
(`src/staples/mod.rs`): same table as `src/card_name.rs`, but returns the
input unchanged when it is not in the table. -/
def get_cached.fix_lotr_accented_cards (card : String) : String :=
  if card = "Lorien Revealed" then "Lórien Revealed"
  else if card = "Troll of Khazad-dum" then "Troll of Khazad-dûm"
  else card

/-- The key `get_cached` stores a fetched card under: the first face's name
when the card has faces, else the card's own name. -/
def cacheNameOf (card : Card) : String :=
  match card.card_faces.bind List.head? with
  | some front_face => front_face.name
  | none => card.name

/-- `get_cached` from `src/staples/mod.rs`, with the async file/network
effects made explicit: `fetch` is the `scryfall::Card::named` oracle and the
card cache map is passed in and out. On a hit the cached card is returned
with no external call; on a miss the card is fetched and inserted under
`cacheNameOf` (then the whole map is persisted). The final component counts
external fetches performed by this call (0 or 1). -/
def get_cached (fetch : String → Card) (name : String) (cache : List (String × Card)) :
    Card × List (String × Card) × Nat :=
  let name := get_cached.fix_lotr_accented_cards name
  match lookupA cache name with
  | some card => (card, cache, 0)
  | none =>
    let card := fetch name
    (card, insertA (cacheNameOf card) card cache, 1)

/-- `get_printings_cached` from `src/checklist.rs`: cache keyed by the
card's stable id; on a miss the printings list is fetched and inserted under
that same id. Final component counts external fetches (0 or 1). -/
def get_printings_cached (fetch : Card → List Set) (card : Card)
    (cache : List (Nat × List Set)) : List Set × List (Nat × List Set) × Nat :=
  match lookupA cache card.id with
  | some sets => (sets, cache, 0)
  | none =>
    let printings := fetch card
    (printings, insertA card.id printings cache, 1)

/-- Two sequential resolutions of the same name through the card cache:
both returned values and the total number of external fetches. -/
def getCachedTwice (fetch : String → Card) (name : String)
    (cache : List (String × Card)) : Card × Card × Nat :=
  let r1 := get_cached fetch name cache
  let r2 := get_cached fetch name r1.2.1
  (r1.1, r2.1, r1.2.2 + r2.2.2)

/-- Two sequential resolutions of the same card through the printings cache. -/
def getPrintingsTwice (fetch : Card → List Set) (card : Card)
    (cache : List (Nat × List Set)) : List Set × List Set × Nat :=
  let r1 := get_printings_cached fetch card cache
  let r2 := get_printings_cached fetch card r1.2.1
  (r1.1, r2.1, r1.2.2 + r2.2.2)

/-! ## Owned versions (`ChecklistCard::add_version` / `remove_version`) -/

/-- `Iterator::position(|s| s == &code)` over the owned-version list. -/
def positionEq (code : String) : List String → Option Nat
  | [] => none
  | s :: rest => if s = code then some 0 else (positionEq code rest).map (· + 1)

/-- `ChecklistCard::add_version`: push the code and return the new count. -/
def add_version (owned_versions : List String) (code : String) : List String × Nat :=
  let v := owned_versions ++ [code]
  (v, v.length)

/-- `ChecklistCard::remove_version`: remove the first occurrence of the code
when there is one, then return the resulting count. -/
def remove_version (owned_versions : List String) (code : String) : List String × Nat :=
  let v :=
    match positionEq code owned_versions with
    | some index => owned_versions.eraseIdx index
    | none => owned_versions
  (v, v.length)

/-! ## Comparators

Rust `Ordering` combinators: `o.reverse()` is `Ordering.swap`,
`o.then_with(f)` is `Ordering.then`. -/

/-- Comparator from a linear order, as `total_cmp` / derived `Ord` produce
on the non-NaN values the program manipulates. -/
def lincmp {α : Type} [LinearOrder α] (a b : α) : Ordering :=
  if a < b then .lt else if b < a then .gt else .eq

/-- Lexicographic composition of comparators (`Ordering::then_with`). -/
def thenCmp {α : Type} (c1 c2 : α → α → Ordering) : α → α → Ordering :=
  fun a b => (c1 a b).then (c2 a b)

/-- Reversed comparator (`Ordering::reverse`). -/
def swapCmp {α : Type} (c : α → α → Ordering) : α → α → Ordering :=
  fun a b => (c a b).swap

/-- Comparator pulled back along a key function. -/
def byKey {α β : Type} (f : α → β) (c : β → β → Ordering) : α → α → Ordering :=
  fun a b => c (f a) (f b)

/-- Lexicographic slice comparison, as Rust's derived `Ord` on `Vec`/slices:
element by element, a strict prefix sorts first. -/
def lcmp {α : Type} (c : α → α → Ordering) : List α → List α → Ordering
  | [], [] => .eq
  | [], _ :: _ => .lt
  | _ :: _, [] => .gt
  | x :: xs, y :: ys => (c x y).then (lcmp c xs ys)

/-- `Option` comparison, as Rust's derived `Ord`: `None` sorts before
`Some`. -/
def ocmp {α : Type} (c : α → α → Ordering) : Option α → Option α → Ordering
  | none, none => .eq
  | none, some _ => .lt
  | some _, none => .gt
  | some a, some b => c a b

/-- Character comparison by code point; on `String`s this agrees with Rust's
UTF-8 byte-wise `Ord` because UTF-8 preserves code-point order. -/
def ccmp : Char → Char → Ordering := byKey Char.toNat lincmp

/-- Rust `String` comparison. -/
def scmp : String → String → Ordering := byKey String.data (lcmp ccmp)

/-- Rust derived `Ord` on `scryfall::card::Color` (discriminant order
White < Blue < Black < Red < Green). -/
def colorCmp : Color → Color → Ordering := byKey Color.bits lincmp

/-- The laws making an `Ordering`-valued comparator a deterministic total
(pre)order: antisymmetric under swapping the arguments, and transitive in
every `.lt`/`.eq` combination. -/
structure TotalCmp {α : Type} (cmp : α → α → Ordering) : Prop where
  symm : ∀ a b, cmp a b = (cmp b a).swap
  eq_trans : ∀ a b c, cmp a b = .eq → cmp b c = .eq → cmp a c = .eq
  lt_trans : ∀ a b c, cmp a b = .lt → cmp b c = .lt → cmp a c = .lt
  eq_lt_trans : ∀ a b c, cmp a b = .eq → cmp b c = .lt → cmp a c = .lt
  lt_eq_trans : ∀ a b c, cmp a b = .lt → cmp b c = .eq → cmp a c = .lt

/-! ## Checklist entries and the ranking comparator (`src/checklist.rs`) -/

/-- `ChecklistCard`: the joined record for one staple. The `RefCell` around
`owned_versions` is modelled by passing the list functionally. -/
structure ChecklistCard where
  card : Card
  printings : List Set
  owned_versions : List String
  metadata : Metadata
deriving DecidableEq, Repr

/-- `colors_of` nested in `ChecklistCard::cmp`: the card's color list, else
the first face's color list, else none. -/
def colors_of (card : Card) : Option (List Color) :=
  card.colors.orElse fun _ => (card.card_faces.bind List.head?).bind CardFace.colors

/-- `ChecklistCard::cmp`: descending by `missing * percent_in_decks`, then
descending by `percent_in_decks`, then ascending by color signature, then
ascending by canonical name. -/
def ChecklistCard.cmp (missing : ChecklistCard → Nat) (a b : ChecklistCard) : Ordering :=
  ((((lincmp ((missing a : Rat) * a.metadata.percent_in_decks)
          ((missing b : Rat) * b.metadata.percent_in_decks)).swap).then
        ((lincmp a.metadata.percent_in_decks b.metadata.percent_in_decks).swap)).then
      (ocmp (lcmp colorCmp) (colors_of a.card) (colors_of b.card))).then
    (scmp a.card.name b.card.name)

/-- The `missing` count of `cmp_using_collected`:
`num_copies.saturating_sub(owned_versions.len())`, i.e.
`max(num_copies - |owned|, 0)` (truncated `Nat` subtraction). -/
def missing_using_collected (card : ChecklistCard) : Nat :=
  card.metadata.num_copies - card.owned_versions.length

/-- `ChecklistCard::cmp_using_collected`. -/
def ChecklistCard.cmp_using_collected (a b : ChecklistCard) : Ordering :=
  ChecklistCard.cmp missing_using_collected a b

/-- `ChecklistCard::cmp_ignoring_collected`: `missing` is just `num_copies`. -/
def ChecklistCard.cmp_ignoring_collected (a b : ChecklistCard) : Ordering :=
  ChecklistCard.cmp (fun c => c.metadata.num_copies) a b

/-! ## Sorting, dedup, and the staple aggregator (`src/staples/mod.rs::fetch`) -/

/-- Insertion sort by a comparator: a model of `sort_unstable_by`, agreeing
with it up to the order of equal-comparing elements. -/
def insertSorted {α : Type} (cmp : α → α → Ordering) (a : α) : List α → List α
  | [] => [a]
  | b :: l => if cmp a b = .gt then b :: insertSorted cmp a l else a :: b :: l

/-- Sort a list by a comparator. -/
def sortByCmp {α : Type} (cmp : α → α → Ordering) (l : List α) : List α :=
  l.foldr (insertSorted cmp) []

/-- The tail worker of `Vec::dedup_by`: `a` is the last retained element;
drop each following element the predicate identifies with it, keeping the
first of every run. -/
def dedup_from {α : Type} (same : α → α → Bool) (a : α) : List α → List α
  | [] => []
  | b :: l => if same b a then dedup_from same a l else b :: dedup_from same b l

/-- `Vec::dedup_by`. -/
def dedup_by {α : Type} (same : α → α → Bool) : List α → List α
  | [] => []
  | a :: l => a :: dedup_from same a l

/-- The sort key of `fetch` (`src/staples/mod.rs`): stable id ascending,
then entries with metadata before entries without, then higher
`percent_in_decks` first. -/
def staples_sort_cmp (a b : Card × Option Metadata) : Ordering :=
  (lincmp a.1.id b.1.id).then
    (match a.2, b.2 with
     | some m_a, some m_b => (lincmp m_a.percent_in_decks m_b.percent_in_decks).swap
     | none, some _ => .gt
     | some _, none => .lt
     | none, none => .eq)

/-- The dedup predicate of `fetch`: equal stable ids. -/
def sameCardId (a b : Card × Option Metadata) : Bool := a.1.id == b.1.id

/-- The merge step of `fetch`: concatenate both scrapers' outputs, sort by
`staples_sort_cmp`, then collapse adjacent runs with equal stable id to
their first element. -/
def staples_fetch (top8 goldfish : List (Card × Option Metadata)) :
    List (Card × Option Metadata) :=
  dedup_by sameCardId (sortByCmp staples_sort_cmp (top8 ++ goldfish))

/-! ## Substring search (`str::contains` with a literal pattern) -/

/-- Whether `needle` starts `hay`. -/
def startsWithChars : List Char → List Char → Bool
  | [], _ => true
  | _ :: _, [] => false
  | a :: xs, b :: ys => a == b && startsWithChars xs ys

/-- Whether `needle` occurs contiguously in `hay`. -/
def containsSub (hay needle : List Char) : Bool :=
  (List.range (hay.length + 1)).any fun i => startsWithChars needle (hay.drop i)

/-- Rust `str::contains` with a literal substring pattern. -/
def strContains (hay needle : String) : Bool := containsSub hay.data needle.data

/-! ## Checklist construction (`src/checklist.rs::Checklist::new`) -/

/-- The filter of `Checklist::new`: keep a card when its type line is
absent, or present and free of "Basic". -/
def checklist_keep (card : Card) : Bool :=
  match card.type_line with
  | none => true
  | some line => !strContains line "Basic"

/-- `Collection::get`: look up the owned printing codes under the
normalized (`From<&str> for &CName`, then `trimming_double_faced`) name;
absent names own nothing. -/
def collection_get (collection : List (String × List String)) (name : String) :
    List String :=
  (lookupA collection (trimming_double_faced (cnameFrom name))).getD []

/-- `Checklist::new` with the async effects made explicit: filter out cards
whose type line contains "Basic", join each survivor with its owned versions
and printings, default absent metadata to 100% / 4 copies, and sort with the
using-collected comparator. (`buffer_unordered` completion order is
irrelevant: the collected entries are sorted before use.) -/
def checklist_new (printingsFetch : Card → List Set)
    (collection : List (String × List String))
    (staples : List (Card × Option Metadata)) : List ChecklistCard :=
  sortByCmp ChecklistCard.cmp_using_collected
    (((staples.filter fun s => checklist_keep s.1).map fun s =>
      { card := s.1
        printings := printingsFetch s.1
        owned_versions := collection_get collection s.1.name
        metadata := s.2.getD { num_copies := 4, percent_in_decks := 100 } }))

/-- `Checklist::ignoring_collection`: the same entries re-sorted with the
ignoring-collected comparator. -/
def ignoring_collection (checklist : List ChecklistCard) : List ChecklistCard :=
  sortByCmp ChecklistCard.cmp_ignoring_collected checklist

/-! ## The statistics scan (`src/ui/stats.rs::calculate`) -/

/-- The WUBRG constant of `src/ui/stats.rs`. -/
def WUBRG : List Color := [.white, .blue, .black, .red, .green]

def trailingZerosAux : Nat → Nat → Nat
  | 0, _ => 0
  | fuel + 1, n => if n % 2 = 1 then 0 else 1 + trailingZerosAux fuel (n / 2)

/-- `u8::trailing_zeros` (8 for input 0). -/
def u8_trailing_zeros (n : Nat) : Nat := trailingZerosAux 8 n

def trailingOnesAux : Nat → Nat → Nat
  | 0, _ => 0
  | fuel + 1, n => if n % 2 = 1 then 1 + trailingOnesAux fuel (n / 2) else 0

/-- `u8::trailing_ones`. -/
def u8_trailing_ones (n : Nat) : Nat := trailingOnesAux 8 n

/-- `counters_full` (`src/ui/stats.rs`): every mono-color counter (read at
index `trailing_zeros` of the color's bits) at least 20, colorless (index 5)
at least 20, multicolor (index 6) at least 10. The land counter (index 7) is
not consulted. -/
def counters_full (counters : List Nat) : Bool :=
  (WUBRG.all fun c => decide (20 ≤ counters.getD (u8_trailing_zeros c.bits) 0))
    && decide (20 ≤ counters.getD 5 0) && decide (10 ≤ counters.getD 6 0)

/-- The bucket selection of the scan loop: land (type line contains "Land")
takes priority, then colorless (absent or empty color list), then a
mono-color index computed — as written in the source — with
`trailing_ones`, then multicolor (index 6). -/
def bucket_index (card : Card) : Nat :=
  if (match card.type_line with | some s => strContains s "Land" | none => false) then 7
  else match card.colors with
    | none => 5
    | some [] => 5
    | some [c] => u8_trailing_ones c.bits
    | some (_ :: _ :: _) => 6

/-- One step of the scan: `counters[index] += 1`. -/
def bump (counters : List Nat) (card : Card) : List Nat :=
  counters.set (bucket_index card) (counters.getD (bucket_index card) 0 + 1)

/-- The scan loop of `calculate`: before each step check `counters_full`;
while it is false consume the next entry (in the checklist's own order),
bump its bucket, and continue. Returns the consumed prefix. -/
def scan_consumed (counters : List Nat) : List ChecklistCard → List ChecklistCard
  | [] => []
  | c :: rest =>
    if counters_full counters then []
    else c :: scan_consumed (bump counters c.card) rest

/-- The counters after consuming a sequence of entries. -/
def run_counters (counters : List Nat) (cards : List ChecklistCard) : List Nat :=
  cards.foldl (fun cs c => bump cs c.card) counters

/-- `let mut counters = [0_u16; LAND + 1]`. -/
def initial_counters : List Nat := List.replicate 8 0

/-- The sequence of entries `calculate` consumes from the checklist. -/
def calculate_consumed (checklist : List ChecklistCard) : List ChecklistCard :=
  scan_consumed initial_counters checklist

/-- `top_cards` after the scan: the consumed prefix re-sorted with the
ignoring-collected comparator. -/
def calculate_top_cards (checklist : List ChecklistCard) : List ChecklistCard :=
  sortByCmp ChecklistCard.cmp_ignoring_collected (calculate_consumed checklist)

/-! ## The table scraper (`src/staples/goldfish.rs`) -/

/-- One `<tr>` of the scraped table: the name of its parent element and its
non-empty text fragments. -/
structure Tr where
  parent : Option String
  texts : List String
deriving DecidableEq, Repr

/-- Digits-only string to number. -/
def digitsToNat (ds : List Char) : Option Nat :=
  match ds with
  | [] => none
  | _ :: _ =>
    if ds.all Char.isDigit then
      some (ds.foldl (fun acc c => acc * 10 + (c.toNat - 48)) 0)
    else none

/-- `str::parse::<f32>` restricted to the plain decimal forms the scraped
pages produce (`"43"`, `"12.5"`); anything else fails to parse. -/
def parse_f32 (s : String) : Option Rat :=
  match s.data.findIdx? (· == '.') with
  | none => (digitsToNat s.data).map (fun n => (n : Rat))
  | some i =>
    let whole := s.data.take i
    let frac := s.data.drop (i + 1)
    match digitsToNat whole, digitsToNat frac with
    | some w, some f => some ((w : Rat) + (f : Rat) / ((10 : Rat) ^ frac.length))
    | _, _ => none

/-- `trim_end_matches('%')`. -/
def trim_end_percent (s : String) : String :=
  String.mk ((s.data.reverse.dropWhile (· == '%')).reverse)

/-- `c.ceil() as u8` (saturating float-to-integer cast). -/
def ceil_as_u8 (x : Rat) : Nat := (min 255 (max 0 ⌈x⌉)).toNat

/-- The per-row closure of `scrape`: trim and drop empty text fragments,
skip the leading icon cell, read name / percent / copies, resolve the name
through the card resolver. The `unwrap` on a row with no name cell is a Rust
panic, modelled as an error. -/
def process_row (resolve : String → Except String Card) (tr : Tr) :
    Except String (Card × Metadata) :=
  let values :=
    ((tr.texts.map fun s => String.mk (listTrim s.data)).filter fun s => !s.isEmpty).drop 1
  match values with
  | [] => .error "panic: row has no name cell"
  | name :: rest =>
    let percent_in_decks := rest.head?.bind fun s => parse_f32 (trim_end_percent s)
    let num_copies := (rest.drop 1).head?.bind fun s => (parse_f32 s).map ceil_as_u8
    (resolve name).map fun card => (card, Metadata.new percent_in_decks num_copies)

/-- `scrape` (`src/staples/goldfish.rs`) on an already-fetched, parsed page:
`none` models a page in which no `<table>` matches — a warning is logged and
the scrape succeeds with zero rows; otherwise the rows not inside a `thead`
are each processed to a per-row result. The first component is the log of
warnings. -/
def scrape (resolve : String → Except String Card) (doc : Option (List Tr)) :
    List String × Except String (List (Except String (Card × Metadata))) :=
  match doc with
  | some table =>
    ([], .ok ((table.filter fun tr => !(tr.parent == some "thead")).map (process_row resolve)))
  | none => (["WARN: could not find table"], .ok [])

/-- The `try_flatten`/`try_collect` of `goldfish::fetch`: the first failing
row resolution fails the whole fetch; each successful row's metadata is
wrapped in `some`. -/
def collect_rows : List (Except String (Card × Metadata)) →
    Except String (List (Card × Option Metadata))
  | [] => .ok []
  | .error e :: _ => .error e
  | .ok (card, meta) :: rest => (collect_rows rest).map fun l => (card, some meta) :: l

/-- `goldfish::fetch` over the category pages: scrape each page, flatten the
row results, fail on the first row error, and accumulate the warnings. -/
def goldfish_fetch (resolve : String → Except String Card) :
    List (Option (List Tr)) → List String × Except String (List (Card × Option Metadata))
  | [] => ([], .ok [])
  | doc :: rest =>
    let r1 := scrape resolve doc
    let r2 := goldfish_fetch resolve rest
    (r1.1 ++ r2.1,
      match r1.2 with
      | .error e => .error e
      | .ok rows =>
        match collect_rows rows, r2.2 with
        | .error e, _ => .error e
        | .ok _, .error e => .error e
        | .ok l1, .ok l2 => .ok (l1 ++ l2))

/-! ## Concrete sample data used by witnesses and counterexamples -/

/-- A single-faced sample card whose cache name is its lookup name. -/
def optCard : Card :=
  { id := 1, name := "Opt", colors := some [.blue], card_faces := none
    type_line := some "Instant" }

/-- An oracle that answers every name with `optCard` renamed to the query. -/
def plainFetch : String → Card := fun name =>
  { id := 1, name := name, colors := some [.blue], card_faces := none
    type_line := some "Instant" }

/-- A split card: its full name is "Fire // Ice" but its cache name (the
front face's name) is "Fire". -/
def fireIceCard : Card :=
  { id := 7, name := "Fire // Ice", colors := some [.blue, .red]
    card_faces :=
      some [{ name := "Fire", colors := some [.red] },
            { name := "Ice", colors := some [.blue] }]
    type_line := some "Instant // Instant" }

/-- An oracle that answers every name with the split card. -/
def fireIceFetch : String → Card := fun _ => fireIceCard

/-- Checklist entry A of the ranking example: 4 copies wanted, 1 owned,
80% of decks. -/
def entryA : ChecklistCard :=
  { card := { id := 10, name := "Aether Vial", colors := some []
              card_faces := none, type_line := some "Artifact" }
    printings := []
    owned_versions := ["dst"]
    metadata := { percent_in_decks := 80, num_copies := 4 } }

/-- Checklist entry B of the ranking example: 4 copies wanted, 4 owned,
100% of decks. -/
def entryB : ChecklistCard :=
  { card := { id := 11, name := "Lightning Bolt", colors := some [.red]
              card_faces := none, type_line := some "Instant" }
    printings := []
    owned_versions := ["lea", "m10", "2ed", "3ed"]
    metadata := { percent_in_decks := 100, num_copies := 4 } }

/-- A card both sources list (same stable id) with different percents. -/
def cardX : Card :=
  { id := 42, name := "Mulldrifter", colors := some [.blue], card_faces := none
    type_line := some "Creature — Elemental" }

/-- A basic land whose name is not one of the five basic land names. -/
def snowCoveredForest : Card :=
  { id := 20, name := "Snow-Covered Forest", colors := some [], card_faces := none
    type_line := some "Basic Snow Land — Forest" }

/-- A mono-colored card of the given color, with a non-land type line. -/
def monoCard (c : Color) : Card :=
  { id := 30 + c.bits, name := "Mono Sample", colors := some [c], card_faces := none
    type_line := some "Creature" }

/-!
# Theorems
-/

theorem lookupA_insertA_self {κ ν : Type} [DecidableEq κ] (key : κ) (v : ν)
    (l : List (κ × ν)) : lookupA (insertA key v l) key = some v := by
  induction l with
  | nil => simp [insertA, lookupA]
  | cons head rest ih =>
    obtain ⟨k, w⟩ := head
    by_cases hk : k = key <;> simp [insertA, lookupA, hk, ih]

/-! ### Comparator laws -/

theorem swap_then_distrib (o1 o2 : Ordering) :
    (o1.then o2).swap = (o1.swap).then (o2.swap) := by
  cases o1 <;> rfl

theorem then_eq_lt {o1 o2 : Ordering} :
    o1.then o2 = .lt ↔ o1 = .lt ∨ (o1 = .eq ∧ o2 = .lt) := by
  cases o1 <;> simp [Ordering.then]

theorem then_eq_eq {o1 o2 : Ordering} : o1.then o2 = .eq ↔ o1 = .eq ∧ o2 = .eq := by
  cases o1 <;> simp [Ordering.then]

theorem lincmp_lt {α : Type} [LinearOrder α] {a b : α} : lincmp a b = .lt ↔ a < b := by
  unfold lincmp
  split_ifs with h1 h2
  · simp [h1]
  · simp [lt_asymm h2]
  · simp [h1]

theorem lincmp_gt {α : Type} [LinearOrder α] {a b : α} : lincmp a b = .gt ↔ b < a := by
  unfold lincmp
  split_ifs with h1 h2
  · simp [lt_asymm h1]
  · simp [h2]
  · simp [h2]

theorem lincmp_eq {α : Type} [LinearOrder α] {a b : α} : lincmp a b = .eq ↔ a = b := by
  unfold lincmp
  split_ifs with h1 h2
  · simp [h1.ne]
  · simp [h2.ne']
  · simp [le_antisymm (not_lt.mp h2) (not_lt.mp h1)]

theorem totalCmp_lincmp {α : Type} [LinearOrder α] : TotalCmp (lincmp (α := α)) where
  symm a b := by
    rcases lt_trichotomy a b with h | h | h
    · rw [lincmp_lt.mpr h, show lincmp b a = .gt from lincmp_gt.mpr h]; rfl
    · rw [lincmp_eq.mpr h, show lincmp b a = .eq from lincmp_eq.mpr h.symm]; rfl
    · rw [lincmp_gt.mpr h, show lincmp b a = .lt from lincmp_lt.mpr h]; rfl
  eq_trans a b c hab hbc :=
    lincmp_eq.mpr ((lincmp_eq.mp hab).trans (lincmp_eq.mp hbc))
  lt_trans a b c hab hbc :=
    lincmp_lt.mpr (lt_trans (lincmp_lt.mp hab) (lincmp_lt.mp hbc))
  eq_lt_trans a b c hab hbc :=
    lincmp_lt.mpr ((lincmp_eq.mp hab) ▸ (lincmp_lt.mp hbc))
  lt_eq_trans a b c hab hbc :=
    lincmp_lt.mpr ((lincmp_eq.mp hbc) ▸ (lincmp_lt.mp hab))

theorem TotalCmp.thenc {α : Type} {c1 c2 : α → α → Ordering} (h1 : TotalCmp c1)
    (h2 : TotalCmp c2) : TotalCmp (thenCmp c1 c2) where
  symm a b := by
    unfold thenCmp
    rw [h1.symm a b, h2.symm a b, ← swap_then_distrib]
  eq_trans a b c hab hbc := by
    unfold thenCmp at hab hbc ⊢
    rw [then_eq_eq] at hab hbc ⊢
    exact ⟨h1.eq_trans _ _ _ hab.1 hbc.1, h2.eq_trans _ _ _ hab.2 hbc.2⟩
  lt_trans a b c hab hbc := by
    unfold thenCmp at hab hbc ⊢
    rw [then_eq_lt] at hab hbc ⊢
    rcases hab with ha | ⟨hae, ha2⟩ <;> rcases hbc with hb | ⟨hbe, hb2⟩
    · exact Or.inl (h1.lt_trans _ _ _ ha hb)
    · exact Or.inl (h1.lt_eq_trans _ _ _ ha hbe)
    · exact Or.inl (h1.eq_lt_trans _ _ _ hae hb)
    · exact Or.inr ⟨h1.eq_trans _ _ _ hae hbe, h2.lt_trans _ _ _ ha2 hb2⟩
  eq_lt_trans a b c hab hbc := by
    unfold thenCmp at hab hbc ⊢
    rw [then_eq_eq] at hab
    rw [then_eq_lt] at hbc ⊢
    rcases hbc with hb | ⟨hbe, hb2⟩
    · exact Or.inl (h1.eq_lt_trans _ _ _ hab.1 hb)
    · exact Or.inr ⟨h1.eq_trans _ _ _ hab.1 hbe, h2.eq_lt_trans _ _ _ hab.2 hb2⟩
  lt_eq_trans a b c hab hbc := by
    unfold thenCmp at hab hbc ⊢
    rw [then_eq_eq] at hbc
    rw [then_eq_lt] at hab ⊢
    rcases hab with ha | ⟨hae, ha2⟩
    · exact Or.inl (h1.lt_eq_trans _ _ _ ha hbc.1)
    · exact Or.inr ⟨h1.eq_trans _ _ _ hae hbc.1, h2.lt_eq_trans _ _ _ ha2 hbc.2⟩

theorem TotalCmp.gt_iff {α : Type} {c : α → α → Ordering} (h : TotalCmp c) (a b : α) :
    c a b = .gt ↔ c b a = .lt := by
  rw [h.symm a b]
  cases c b a <;> simp [Ordering.swap]

theorem TotalCmp.eq_flip {α : Type} {c : α → α → Ordering} (h : TotalCmp c) (a b : α) :
    c a b = .eq ↔ c b a = .eq := by
  rw [h.symm a b]
  cases c b a <;> simp [Ordering.swap]

theorem TotalCmp.swapc {α : Type} {c : α → α → Ordering} (h : TotalCmp c) :
    TotalCmp (swapCmp c) where
  symm a b := by
    unfold swapCmp
    rw [h.symm a b]
  eq_trans a b d hab hbc := by
    unfold swapCmp at hab hbc ⊢
    cases h1 : c a b <;> rw [h1] at hab <;> cases hab
    cases h2 : c b d <;> rw [h2] at hbc <;> cases hbc
    rw [h.eq_trans _ _ _ h1 h2]; rfl
  lt_trans a b d hab hbc := by
    unfold swapCmp at hab hbc ⊢
    cases h1 : c a b <;> rw [h1] at hab <;> cases hab
    cases h2 : c b d <;> rw [h2] at hbc <;> cases hbc
    rw [(h.gt_iff a d).mpr (h.lt_trans _ _ _ ((h.gt_iff b d).mp h2) ((h.gt_iff a b).mp h1))]
    rfl
  eq_lt_trans a b d hab hbc := by
    unfold swapCmp at hab hbc ⊢
    cases h1 : c a b <;> rw [h1] at hab <;> cases hab
    cases h2 : c b d <;> rw [h2] at hbc <;> cases hbc
    rw [(h.gt_iff a d).mpr
      (h.lt_eq_trans _ _ _ ((h.gt_iff b d).mp h2) ((h.eq_flip a b).mp h1))]
    rfl
  lt_eq_trans a b d hab hbc := by
    unfold swapCmp at hab hbc ⊢
    cases h1 : c a b <;> rw [h1] at hab <;> cases hab
    cases h2 : c b d <;> rw [h2] at hbc <;> cases hbc
    rw [(h.gt_iff a d).mpr
      (h.eq_lt_trans _ _ _ ((h.eq_flip b d).mp h2) ((h.gt_iff a b).mp h1))]
    rfl

theorem TotalCmp.byKeyc {α β : Type} {c : β → β → Ordering} (f : α → β)
    (h : TotalCmp c) : TotalCmp (byKey f c) where
  symm a b := h.symm (f a) (f b)
  eq_trans a b c hab hbc := h.eq_trans (f a) (f b) (f c) hab hbc
  lt_trans a b c hab hbc := h.lt_trans (f a) (f b) (f c) hab hbc
  eq_lt_trans a b c hab hbc := h.eq_lt_trans (f a) (f b) (f c) hab hbc
  lt_eq_trans a b c hab hbc := h.lt_eq_trans (f a) (f b) (f c) hab hbc

theorem TotalCmp.optionc {α : Type} {c : α → α → Ordering} (h : TotalCmp c) :
    TotalCmp (ocmp c) where
  symm a b := by
    cases a <;> cases b <;> first | rfl | exact h.symm _ _
  eq_trans a b d hab hbc := by
    cases a <;> cases b <;> cases d <;>
      simp only [ocmp] at hab hbc ⊢ <;>
      first
        | rfl
        | exact h.eq_trans _ _ _ hab hbc
        | exact Ordering.noConfusion hab
        | exact Ordering.noConfusion hbc
  lt_trans a b d hab hbc := by
    cases a <;> cases b <;> cases d <;>
      simp only [ocmp] at hab hbc ⊢ <;>
      first
        | rfl
        | exact h.lt_trans _ _ _ hab hbc
        | exact Ordering.noConfusion hab
        | exact Ordering.noConfusion hbc
  eq_lt_trans a b d hab hbc := by
    cases a <;> cases b <;> cases d <;>
      simp only [ocmp] at hab hbc ⊢ <;>
      first
        | rfl
        | exact h.eq_lt_trans _ _ _ hab hbc
        | exact Ordering.noConfusion hab
        | exact Ordering.noConfusion hbc
  lt_eq_trans a b d hab hbc := by
    cases a <;> cases b <;> cases d <;>
      simp only [ocmp] at hab hbc ⊢ <;>
      first
        | rfl
        | exact h.lt_eq_trans _ _ _ hab hbc
        | exact Ordering.noConfusion hab
        | exact Ordering.noConfusion hbc

theorem TotalCmp.listc {α : Type} {c : α → α → Ordering} (h : TotalCmp c) :
    TotalCmp (lcmp c) where
  symm a b := by
    induction a generalizing b with
    | nil => cases b <;> rfl
    | cons x xs ih =>
      cases b with
      | nil => rfl
      | cons y ys =>
        show (c x y).then (lcmp c xs ys) = ((c y x).then (lcmp c ys xs)).swap
        rw [h.symm x y, ih ys, ← swap_then_distrib]
  eq_trans a b d hab hbc := by
    induction a generalizing b d with
    | nil =>
      cases b with
      | nil => cases d <;> first | rfl | exact Ordering.noConfusion hbc
      | cons y ys => exact Ordering.noConfusion hab
    | cons x xs ih =>
      cases b with
      | nil => exact Ordering.noConfusion hab
      | cons y ys =>
        cases d with
        | nil => exact Ordering.noConfusion hbc
        | cons z zs =>
          rw [show lcmp c (x :: xs) (y :: ys) = (c x y).then (lcmp c xs ys) from rfl,
            then_eq_eq] at hab
          rw [show lcmp c (y :: ys) (z :: zs) = (c y z).then (lcmp c ys zs) from rfl,
            then_eq_eq] at hbc
          show (c x z).then (lcmp c xs zs) = .eq
          rw [then_eq_eq]
          exact ⟨h.eq_trans _ _ _ hab.1 hbc.1, ih ys zs hab.2 hbc.2⟩
  lt_trans a b d hab hbc := by
    induction a generalizing b d with
    | nil =>
      cases b with
      | nil => exact Ordering.noConfusion hab
      | cons y ys =>
        cases d with
        | nil => exact Ordering.noConfusion hbc
        | cons z zs => rfl
    | cons x xs ih =>
      cases b with
      | nil => exact Ordering.noConfusion hab
      | cons y ys =>
        cases d with
        | nil => exact Ordering.noConfusion hbc
        | cons z zs =>
          rw [show lcmp c (x :: xs) (y :: ys) = (c x y).then (lcmp c xs ys) from rfl,
            then_eq_lt] at hab
          rw [show lcmp c (y :: ys) (z :: zs) = (c y z).then (lcmp c ys zs) from rfl,
            then_eq_lt] at hbc
          show (c x z).then (lcmp c xs zs) = .lt
          rw [then_eq_lt]
          rcases hab with ha | ⟨hae, ha2⟩ <;> rcases hbc with hb | ⟨hbe, hb2⟩
          · exact Or.inl (h.lt_trans _ _ _ ha hb)
          · exact Or.inl (h.lt_eq_trans _ _ _ ha hbe)
          · exact Or.inl (h.eq_lt_trans _ _ _ hae hb)
          · exact Or.inr ⟨h.eq_trans _ _ _ hae hbe, ih ys zs ha2 hb2⟩
  eq_lt_trans a b d hab hbc := by
    induction a generalizing b d with
    | nil =>
      cases b with
      | nil =>
        cases d with
        | nil => exact Ordering.noConfusion hbc
        | cons z zs => rfl
      | cons y ys => exact Ordering.noConfusion hab
    | cons x xs ih =>
      cases b with
      | nil => exact Ordering.noConfusion hab
      | cons y ys =>
        cases d with
        | nil => exact Ordering.noConfusion hbc
        | cons z zs =>
          rw [show lcmp c (x :: xs) (y :: ys) = (c x y).then (lcmp c xs ys) from rfl,
            then_eq_eq] at hab
          rw [show lcmp c (y :: ys) (z :: zs) = (c y z).then (lcmp c ys zs) from rfl,
            then_eq_lt] at hbc
          show (c x z).then (lcmp c xs zs) = .lt
          rw [then_eq_lt]
          rcases hbc with hb | ⟨hbe, hb2⟩
          · exact Or.inl (h.eq_lt_trans _ _ _ hab.1 hb)
          · exact Or.inr ⟨h.eq_trans _ _ _ hab.1 hbe, ih ys zs hab.2 hb2⟩
  lt_eq_trans a b d hab hbc := by
    induction a generalizing b d with
    | nil =>
      cases b with
      | nil => exact Ordering.noConfusion hab
      | cons y ys =>
        cases d with
        | nil => exact Ordering.noConfusion hbc
        | cons z zs => rfl
    | cons x xs ih =>
      cases b with
      | nil => exact Ordering.noConfusion hab
      | cons y ys =>
        cases d with
        | nil => exact Ordering.noConfusion hbc
        | cons z zs =>
          rw [show lcmp c (x :: xs) (y :: ys) = (c x y).then (lcmp c xs ys) from rfl,
            then_eq_lt] at hab
          rw [show lcmp c (y :: ys) (z :: zs) = (c y z).then (lcmp c ys zs) from rfl,
            then_eq_eq] at hbc
          show (c x z).then (lcmp c xs zs) = .lt
          rw [then_eq_lt]
          rcases hab with ha | ⟨hae, ha2⟩
          · exact Or.inl (h.lt_eq_trans _ _ _ ha hbc.1)
          · exact Or.inr ⟨h.eq_trans _ _ _ hae hbc.1, ih ys zs ha2 hbc.2⟩

/-- The ranking comparator is lawful for every choice of the `missing`
function. -/
theorem totalCmp_checklist_cmp (missing : ChecklistCard → Nat) :
    TotalCmp (ChecklistCard.cmp missing) := by
  have hkey : ChecklistCard.cmp missing =
      thenCmp (thenCmp (thenCmp
        (swapCmp (byKey (fun e : ChecklistCard =>
          (missing e : Rat) * e.metadata.percent_in_decks) lincmp))
        (swapCmp (byKey (fun e : ChecklistCard => e.metadata.percent_in_decks) lincmp)))
        (byKey (fun e : ChecklistCard => colors_of e.card) (ocmp (lcmp colorCmp))))
        (byKey (fun e : ChecklistCard => e.card.name) scmp) := rfl
  rw [hkey]
  exact TotalCmp.thenc (TotalCmp.thenc (TotalCmp.thenc
    (TotalCmp.swapc (TotalCmp.byKeyc _ totalCmp_lincmp))
    (TotalCmp.swapc (TotalCmp.byKeyc _ totalCmp_lincmp)))
    (TotalCmp.byKeyc _
      (show TotalCmp (ocmp (lcmp colorCmp)) from
        TotalCmp.optionc (TotalCmp.listc (TotalCmp.byKeyc Color.bits totalCmp_lincmp)))))
    (TotalCmp.byKeyc _
      (show TotalCmp scmp from
        TotalCmp.byKeyc String.data (TotalCmp.listc (TotalCmp.byKeyc Char.toNat totalCmp_lincmp))))

/-- Evaluation helper: a strictly larger first ranking key decides the
comparator immediately. -/
theorem checklist_cmp_key1_gt (missing : ChecklistCard → Nat) (a b : ChecklistCard)
    (h : (missing b : Rat) * b.metadata.percent_in_decks <
        (missing a : Rat) * a.metadata.percent_in_decks) :
    ChecklistCard.cmp missing a b = .lt := by
  unfold ChecklistCard.cmp
  rw [lincmp_gt.mpr h]
  rfl

/-- Evaluation helper: a strictly smaller first ranking key decides the
comparator immediately. -/
theorem checklist_cmp_key1_lt (missing : ChecklistCard → Nat) (a b : ChecklistCard)
    (h : (missing a : Rat) * a.metadata.percent_in_decks <
        (missing b : Rat) * b.metadata.percent_in_decks) :
    ChecklistCard.cmp missing a b = .gt := by
  unfold ChecklistCard.cmp
  rw [lincmp_lt.mpr h]
  rfl

/-- Claim C3: the ranking comparator is a deterministic total order
(antisymmetric under argument swap and transitive in every case), its
using-collected `missing` is `max(num_copies - |owned|, 0)`, and the entry
with 1 of 4 copies owned at 80% ranks above (compares `.lt`, i.e. sorts
before) the fully-owned entry at 100%. -/
theorem c3_ranking_comparator :
    TotalCmp ChecklistCard.cmp_using_collected
    ∧ (∀ e : ChecklistCard,
        missing_using_collected e = e.metadata.num_copies - e.owned_versions.length)
    ∧ ChecklistCard.cmp_using_collected entryA entryB = .lt := by
  refine ⟨totalCmp_checklist_cmp missing_using_collected, fun e => rfl, ?_⟩
  exact checklist_cmp_key1_gt missing_using_collected entryA entryB
    (by norm_num [entryA, entryB, missing_using_collected])

/-! ### Sorting and dedup -/

theorem TotalCmp.le_trans {α : Type} {c : α → α → Ordering} (h : TotalCmp c) {a b d : α}
    (hab : c a b ≠ .gt) (hbd : c b d ≠ .gt) : c a d ≠ .gt := by
  cases h1 : c a b with
  | gt => exact absurd h1 hab
  | lt =>
    cases h2 : c b d with
    | gt => exact absurd h2 hbd
    | lt => simp [h.lt_trans _ _ _ h1 h2]
    | eq => simp [h.lt_eq_trans _ _ _ h1 h2]
  | eq =>
    cases h2 : c b d with
    | gt => exact absurd h2 hbd
    | lt => simp [h.eq_lt_trans _ _ _ h1 h2]
    | eq => simp [h.eq_trans _ _ _ h1 h2]

theorem mem_insertSorted {α : Type} (cmp : α → α → Ordering) (a x : α) (l : List α) :
    x ∈ insertSorted cmp a l ↔ x = a ∨ x ∈ l := by
  induction l with
  | nil => simp [insertSorted]
  | cons b t ih =>
    by_cases hab : cmp a b = .gt
    · simp only [insertSorted, if_pos hab, List.mem_cons, ih]
      tauto
    · simp only [insertSorted, if_neg hab, List.mem_cons]

theorem pairwise_insertSorted {α : Type} {cmp : α → α → Ordering} (h : TotalCmp cmp)
    (a : α) (l : List α) (hl : l.Pairwise fun x y => cmp x y ≠ .gt) :
    (insertSorted cmp a l).Pairwise fun x y => cmp x y ≠ .gt := by
  induction l with
  | nil => simp [insertSorted]
  | cons b t ih =>
    rcases List.pairwise_cons.mp hl with ⟨hb, ht⟩
    by_cases hab : cmp a b = .gt
    · simp only [insertSorted, if_pos hab]
      refine List.pairwise_cons.mpr ⟨?_, ih ht⟩
      intro x hx
      rcases (mem_insertSorted cmp a x t).mp hx with hxa | hxt
      · rw [hxa]
        simp [(h.gt_iff a b).mp hab]
      · exact hb x hxt
    · simp only [insertSorted, if_neg hab]
      refine List.pairwise_cons.mpr ⟨?_, hl⟩
      intro x hx
      rcases List.mem_cons.mp hx with rfl | hxt
      · exact hab
      · exact h.le_trans hab (hb x hxt)

theorem pairwise_sortByCmp {α : Type} {cmp : α → α → Ordering} (h : TotalCmp cmp)
    (l : List α) : (sortByCmp cmp l).Pairwise fun x y => cmp x y ≠ .gt := by
  induction l with
  | nil => simp [sortByCmp]
  | cons a t ih => exact pairwise_insertSorted h a _ ih

theorem perm_insertSorted {α : Type} (cmp : α → α → Ordering) (a : α) (l : List α) :
    (insertSorted cmp a l).Perm (a :: l) := by
  induction l with
  | nil => exact List.Perm.refl _
  | cons b t ih =>
    by_cases hab : cmp a b = .gt
    · simp only [insertSorted, if_pos hab]
      exact (ih.cons b).trans (List.Perm.swap a b t)
    · simp only [insertSorted, if_neg hab]
      exact List.Perm.refl _

theorem perm_sortByCmp {α : Type} (cmp : α → α → Ordering) (l : List α) :
    (sortByCmp cmp l).Perm l := by
  induction l with
  | nil => exact List.Perm.refl _
  | cons a t ih => exact (perm_insertSorted cmp a _).trans (ih.cons a)

theorem mem_dedup_from {α : Type} (same : α → α → Bool) (a x : α) (l : List α)
    (hx : x ∈ dedup_from same a l) : x ∈ l := by
  induction l generalizing a with
  | nil => simp [dedup_from] at hx
  | cons b t ih =>
    by_cases hs : same b a = true
    · simp only [dedup_from, if_pos hs] at hx
      exact List.mem_cons_of_mem b (ih a hx)
    · simp only [dedup_from, if_neg hs] at hx
      rcases List.mem_cons.mp hx with hxb | hxt
      · exact List.mem_cons.mpr (Or.inl hxb)
      · exact List.mem_cons_of_mem b (ih b hxt)

/-! ### The staple aggregator -/

theorem staples_sort_cmp_eq :
    staples_sort_cmp =
      thenCmp (byKey (fun x : Card × Option Metadata => x.1.id) lincmp)
        (byKey Prod.snd (swapCmp (ocmp (byKey Metadata.percent_in_decks lincmp)))) := by
  funext a b
  obtain ⟨ca, ma⟩ := a
  obtain ⟨cb, mb⟩ := b
  cases ma <;> cases mb <;> rfl

theorem totalCmp_staples_sort_cmp : TotalCmp staples_sort_cmp := by
  rw [staples_sort_cmp_eq]
  exact TotalCmp.thenc (TotalCmp.byKeyc _ totalCmp_lincmp)
    (TotalCmp.byKeyc _ (TotalCmp.swapc (TotalCmp.optionc (TotalCmp.byKeyc _ totalCmp_lincmp))))

theorem staples_cmp_le_ids {x y : Card × Option Metadata}
    (hxy : staples_sort_cmp x y ≠ .gt) : x.1.id ≤ y.1.id := by
  by_contra hlt
  push_neg at hlt
  apply hxy
  unfold staples_sort_cmp
  rw [lincmp_gt.mpr hlt]
  rfl

theorem pairwise_ne_dedup_from (l : List (Card × Option Metadata)) :
    ∀ a, (a :: l).Pairwise (fun x y => x.1.id ≤ y.1.id) →
      (a :: dedup_from sameCardId a l).Pairwise fun x y => x.1.id ≠ y.1.id := by
  induction l with
  | nil =>
    intro a _
    simp [dedup_from]
  | cons b t ih =>
    intro a h
    rcases List.pairwise_cons.mp h with ⟨ha, hbt⟩
    by_cases hs : sameCardId b a = true
    · simp only [dedup_from, if_pos hs]
      apply ih a
      refine List.pairwise_cons.mpr ⟨?_, (List.pairwise_cons.mp hbt).2⟩
      intro x hx
      exact ha x (List.mem_cons_of_mem b hx)
    · simp only [dedup_from, if_neg hs]
      have hD := ih b hbt
      have hab_ne : a.1.id ≠ b.1.id := by
        intro he
        exact hs (by simp [sameCardId, he])
      have hab_lt : a.1.id < b.1.id :=
        lt_of_le_of_ne (ha b (List.mem_cons_self b t)) hab_ne
      refine List.pairwise_cons.mpr ⟨?_, hD⟩
      intro x hx
      rcases List.mem_cons.mp hx with rfl | hxd
      · exact hab_ne
      · have hxt : x ∈ t := mem_dedup_from sameCardId b x t hxd
        have hbx : b.1.id ≤ x.1.id := (List.pairwise_cons.mp hbt).1 x hxt
        exact Nat.ne_of_lt (lt_of_lt_of_le hab_lt hbx)

/-- Claim C2: the aggregator sorts the concatenated scraper outputs by
stable id ascending with metadata-bearing entries first and higher percent
first among those, then collapses runs with equal id, so no two aggregated
entries share a stable id; and for one id claimed by both sources with
percents p < q, the single surviving entry carries percent q, whichever
source held it. -/
theorem c2_staple_aggregator (top8 goldfish : List (Card × Option Metadata))
    (c c' : Card) (m m' : Metadata) :
    (staples_fetch top8 goldfish).Pairwise (fun x y => x.1.id ≠ y.1.id)
    ∧ (c.id = c'.id → staples_sort_cmp (c, some m) (c', none) = .lt)
    ∧ (c.id = c'.id → m.percent_in_decks < m'.percent_in_decks →
        staples_fetch [(c, some m)] [(c', some m')] = [(c', some m')]
        ∧ staples_fetch [(c', some m')] [(c, some m)] = [(c', some m')]) := by
  refine ⟨?_, ?_, ?_⟩
  · unfold staples_fetch
    have hsorted := pairwise_sortByCmp totalCmp_staples_sort_cmp (top8 ++ goldfish)
    have hids : (sortByCmp staples_sort_cmp (top8 ++ goldfish)).Pairwise
        (fun x y => x.1.id ≤ y.1.id) := hsorted.imp fun hxy => staples_cmp_le_ids hxy
    cases hl : sortByCmp staples_sort_cmp (top8 ++ goldfish) with
    | nil => simp [dedup_by]
    | cons a t =>
      rw [hl] at hids
      exact pairwise_ne_dedup_from t a hids
  · intro hid
    show (lincmp c.id c'.id).then Ordering.lt = .lt
    rw [lincmp_eq.mpr hid]
    rfl
  · intro hid hp
    have h1 : staples_sort_cmp (c, some m) (c', some m') = .gt := by
      show (lincmp c.id c'.id).then
        ((lincmp m.percent_in_decks m'.percent_in_decks).swap) = .gt
      rw [lincmp_eq.mpr hid, lincmp_lt.mpr hp]
      rfl
    have h2 : staples_sort_cmp (c', some m') (c, some m) = .lt := by
      show (lincmp c'.id c.id).then
        ((lincmp m'.percent_in_decks m.percent_in_decks).swap) = .lt
      rw [lincmp_eq.mpr hid.symm, lincmp_gt.mpr hp]
      rfl
    have hbeq : sameCardId (c, some m) (c', some m') = true := by
      simp [sameCardId, hid]
    constructor
    · simp [staples_fetch, sortByCmp, insertSorted, h1, dedup_by, dedup_from, hbeq]
    · simp [staples_fetch, sortByCmp, insertSorted, h2, dedup_by, dedup_from, hbeq]

/-- Claim C2, witness: both sources list the same card (equal stable id)
with percents 60 and 95; the aggregate is the single 95% entry, and a
metadata-bearing entry sorts before a bare one of the same id. -/
theorem c2_staple_aggregator_witness :
    staples_fetch [(cardX, some { percent_in_decks := 60, num_copies := 4 })]
        [(cardX, some { percent_in_decks := 95, num_copies := 4 })]
      = [(cardX, some { percent_in_decks := 95, num_copies := 4 })]
    ∧ staples_sort_cmp (cardX, some { percent_in_decks := 60, num_copies := 4 })
        (cardX, none) = .lt :=
  ⟨((c2_staple_aggregator [] [] cardX cardX
      { percent_in_decks := 60, num_copies := 4 }
      { percent_in_decks := 95, num_copies := 4 }).2.2 rfl (by norm_num)).1,
    (c2_staple_aggregator [] [] cardX cardX
      { percent_in_decks := 60, num_copies := 4 }
      { percent_in_decks := 95, num_copies := 4 }).2.1 rfl⟩

/-! ### The checklist builder filter -/

/-- Claim C4 (amended): the builder excludes exactly the cards whose type
line is present and contains "Basic" — the surviving cards are precisely the
type-line-filtered staples (up to the final sort), and the filter keeps a
card iff its type line is absent or free of "Basic", never consulting the
card's name. -/
theorem c4_basic_land_filter (printingsFetch : Card → List Set)
    (collection : List (String × List String))
    (staples : List (Card × Option Metadata)) :
    ((checklist_new printingsFetch collection staples).map fun e => e.card).Perm
        ((staples.filter fun s => checklist_keep s.1).map Prod.fst)
    ∧ (∀ card : Card, checklist_keep card = true ↔
        (card.type_line = none
          ∨ ∃ line, card.type_line = some line ∧ strContains line "Basic" = false)) := by
  constructor
  · unfold checklist_new
    have hperm := (perm_sortByCmp ChecklistCard.cmp_using_collected
      ((staples.filter fun s => checklist_keep s.1).map fun s =>
        { card := s.1
          printings := printingsFetch s.1
          owned_versions := collection_get collection s.1.name
          metadata := s.2.getD { num_copies := 4, percent_in_decks := 100 } })).map
      fun e : ChecklistCard => e.card
    rw [List.map_map] at hperm
    exact hperm
  · intro card
    cases h : card.type_line with
    | none => simp [checklist_keep, h]
    | some line => simp [checklist_keep, h]

/-- Claim C4, counterexample: the staple "Snow-Covered Forest" is excluded
from the checklist although its name is none of the five basic land names —
the code filters on the type line containing "Basic", not on the name. -/
theorem c4_basic_land_filter_counterexample :
    checklist_new (fun _ => []) [] [(snowCoveredForest, none)] = []
    ∧ ¬ (snowCoveredForest.name ∈ ["Plains", "Island", "Swamp", "Mountain", "Forest"]) := by
  constructor
  · rfl
  · decide

/-! ### The statistics scan -/

theorem getD_set_ne (l : List Nat) (j n i : Nat) (hij : i ≠ j) :
    (l.set j n).getD i 0 = l.getD i 0 := by
  induction l generalizing i j with
  | nil => simp
  | cons x t ih =>
    cases j with
    | zero =>
      cases i with
      | zero => exact absurd rfl hij
      | succ i2 => simp [List.set]
    | succ j2 =>
      cases i with
      | zero => simp [List.set]
      | succ i2 =>
        simpa [List.set] using ih j2 i2 (by omega)

theorem counters_full_set_land (cs : List Nat) (n : Nat) :
    counters_full (cs.set 7 n) = counters_full cs := by
  have h0 := getD_set_ne cs 7 n 0 (by decide)
  have h1 := getD_set_ne cs 7 n 1 (by decide)
  have h2 := getD_set_ne cs 7 n 2 (by decide)
  have h3 := getD_set_ne cs 7 n 3 (by decide)
  have h4 := getD_set_ne cs 7 n 4 (by decide)
  have h5 := getD_set_ne cs 7 n 5 (by decide)
  have h6 := getD_set_ne cs 7 n 6 (by decide)
  have hw : u8_trailing_zeros Color.white.bits = 0 := rfl
  have hu : u8_trailing_zeros Color.blue.bits = 1 := rfl
  have hb : u8_trailing_zeros Color.black.bits = 2 := rfl
  have hr : u8_trailing_zeros Color.red.bits = 3 := rfl
  have hg : u8_trailing_zeros Color.green.bits = 4 := rfl
  simp only [counters_full, WUBRG, List.all_cons, List.all_nil, hw, hu, hb, hr, hg,
    h0, h1, h2, h3, h4, h5, h6]

theorem scan_consumed_append (counters : List Nat) (l : List ChecklistCard) :
    ∃ rest, scan_consumed counters l ++ rest = l := by
  induction l generalizing counters with
  | nil => exact ⟨[], rfl⟩
  | cons c rest ih =>
    by_cases hf : counters_full counters = true
    · exact ⟨c :: rest, by simp [scan_consumed, hf]⟩
    · obtain ⟨r, hr⟩ := ih (bump counters c.card)
      exact ⟨r, by simp [scan_consumed, hf, hr]⟩

theorem scan_consumed_not_full (counters : List Nat) (l : List ChecklistCard) :
    ∀ i, i < (scan_consumed counters l).length →
      counters_full (run_counters counters ((scan_consumed counters l).take i)) = false := by
  induction l generalizing counters with
  | nil =>
    intro i hi
    simp [scan_consumed] at hi
  | cons c rest ih =>
    intro i hi
    by_cases hf : counters_full counters = true
    · simp [scan_consumed, hf] at hi
    · have hsc : scan_consumed counters (c :: rest) =
          c :: scan_consumed (bump counters c.card) rest := by
        simp [scan_consumed, hf]
      rw [hsc] at hi ⊢
      cases i with
      | zero =>
        simpa [run_counters] using Bool.eq_false_iff.mpr hf
      | succ i2 =>
        rw [List.take_succ_cons]
        show counters_full (run_counters (bump counters c.card)
          ((scan_consumed (bump counters c.card) rest).take i2)) = false
        exact ih (bump counters c.card) i2 (by simpa using hi)

theorem scan_consumed_halt (counters : List Nat) (l : List ChecklistCard)
    (h : (scan_consumed counters l).length < l.length) :
    counters_full (run_counters counters (scan_consumed counters l)) = true := by
  induction l generalizing counters with
  | nil => simp [scan_consumed] at h
  | cons c rest ih =>
    by_cases hf : counters_full counters = true
    · simp [scan_consumed, hf, run_counters, hf]
    · have hsc : scan_consumed counters (c :: rest) =
          c :: scan_consumed (bump counters c.card) rest := by
        simp [scan_consumed, hf]
      rw [hsc] at h ⊢
      simp only [List.length_cons] at h
      show counters_full (run_counters (bump counters c.card)
        (scan_consumed (bump counters c.card) rest)) = true
      exact ih (bump counters c.card) (by omega)

/-- Claim C7: the scan consumes a prefix of the checklist; every consumed
entry was consumed in a state where the stop condition was false (so no
entry is examined after the condition first holds); if the scan stops with
entries remaining, the stop condition holds at that point; and the stop
condition never consults the land counter (index 7). -/
theorem c7_stats_cutoff (counters : List Nat) (l : List ChecklistCard) :
    (∃ rest, scan_consumed counters l ++ rest = l)
    ∧ (∀ i, i < (scan_consumed counters l).length →
        counters_full (run_counters counters ((scan_consumed counters l).take i)) = false)
    ∧ ((scan_consumed counters l).length < l.length →
        counters_full (run_counters counters (scan_consumed counters l)) = true)
    ∧ (∀ n, counters_full (counters.set 7 n) = counters_full counters) :=
  ⟨scan_consumed_append counters l, scan_consumed_not_full counters l,
    fun h => scan_consumed_halt counters l h, fun n => counters_full_set_land counters n⟩

/-- Claim C7, witness: with all stop thresholds already met (land counter
0), the scan over a one-entry checklist consumes nothing and the stop
condition holds; from zeroed counters the first entry is consumed with the
condition false; and overwriting the land counter never changes the
condition. -/
theorem c7_stats_cutoff_witness :
    counters_full (run_counters [20, 20, 20, 20, 20, 20, 10, 0]
        (scan_consumed [20, 20, 20, 20, 20, 20, 10, 0] [entryA])) = true
    ∧ counters_full (run_counters initial_counters
        ((scan_consumed initial_counters [entryA]).take 0)) = false
    ∧ counters_full (([20, 20, 20, 20, 20, 20, 10, 0] : List Nat).set 7 999) =
        counters_full [20, 20, 20, 20, 20, 20, 10, 0] :=
  ⟨(c7_stats_cutoff [20, 20, 20, 20, 20, 20, 10, 0] [entryA]).2.2.1 (by decide),
    (c7_stats_cutoff initial_counters [entryA]).2.1 0 (by decide),
    (c7_stats_cutoff [20, 20, 20, 20, 20, 20, 10, 0] []).2.2.2 999⟩

/-- Claim C6, code evaluation: `counters_full` reads the five mono-color
buckets at indices `trailing_zeros` of the color bits (0..4), but the scan
classifies a mono-colored card with `trailing_ones`: a mono-White card lands
in bucket 1 and every other mono-colored card in bucket 0, so the five
colors do not get five distinct buckets. -/
theorem c6_mono_bucket_eval :
    u8_trailing_zeros Color.white.bits = 0
    ∧ u8_trailing_zeros Color.blue.bits = 1
    ∧ u8_trailing_zeros Color.black.bits = 2
    ∧ u8_trailing_zeros Color.red.bits = 3
    ∧ u8_trailing_zeros Color.green.bits = 4
    ∧ bucket_index (monoCard .white) = 1
    ∧ bucket_index (monoCard .blue) = 0
    ∧ bucket_index (monoCard .black) = 0
    ∧ bucket_index (monoCard .red) = 0
    ∧ bucket_index (monoCard .green) = 0
    ∧ bucket_index (monoCard .blue) = bucket_index (monoCard .green) := by
  decide

/-- Claim C5 (amended): the stats aggregator consumes a prefix of the
checklist in the checklist's own (using-collected, primary) order; the
ignoring-collected comparator is applied only afterwards, to re-sort the
consumed prefix into `top_cards`. -/
theorem c5_scan_order (checklist : List ChecklistCard) :
    (∃ rest, calculate_consumed checklist ++ rest = checklist)
    ∧ calculate_top_cards checklist =
        sortByCmp ChecklistCard.cmp_ignoring_collected (calculate_consumed checklist) :=
  ⟨scan_consumed_append initial_counters checklist, rfl⟩

/-- Claim C5, counterexample: on the two-entry checklist in primary
(using-collected) order `[entryA, entryB]`, the scan consumes
`[entryA, entryB]` — not the ignoring-collected order, which is
`[entryB, entryA]`. -/
theorem c5_scan_order_counterexample :
    sortByCmp ChecklistCard.cmp_using_collected [entryB, entryA] = [entryA, entryB]
    ∧ calculate_consumed [entryA, entryB] = [entryA, entryB]
    ∧ sortByCmp ChecklistCard.cmp_ignoring_collected [entryA, entryB] = [entryB, entryA]
    ∧ calculate_consumed [entryA, entryB] ≠
        sortByCmp ChecklistCard.cmp_ignoring_collected [entryA, entryB] := by
  have hBA : ChecklistCard.cmp_using_collected entryB entryA = .gt :=
    checklist_cmp_key1_lt missing_using_collected entryB entryA
      (by norm_num [entryA, entryB, missing_using_collected])
  have hABign : ChecklistCard.cmp_ignoring_collected entryA entryB = .gt :=
    checklist_cmp_key1_lt (fun e => e.metadata.num_copies) entryA entryB
      (by norm_num [entryA, entryB])
  have hcons : calculate_consumed [entryA, entryB] = [entryA, entryB] := by decide
  have hsort : sortByCmp ChecklistCard.cmp_ignoring_collected [entryA, entryB] =
      [entryB, entryA] := by
    simp [sortByCmp, insertSorted, hABign]
  refine ⟨?_, hcons, hsort, ?_⟩
  · simp [sortByCmp, insertSorted, hBA]
  · rw [hcons, hsort]
    decide

/-! ### The table scraper -/

/-- Claim C9: a category page with no table contributes zero rows and a
logged warning while the scrape still succeeds, and prepending such a page
to the category list adds exactly the warning to the log and changes
nothing in the overall fetch result. -/
theorem c9_no_table_scrape (resolve : String → Except String Card)
    (docs : List (Option (List Tr))) :
    scrape resolve none = (["WARN: could not find table"], .ok [])
    ∧ (goldfish_fetch resolve (none :: docs)).1 =
        "WARN: could not find table" :: (goldfish_fetch resolve docs).1
    ∧ (goldfish_fetch resolve (none :: docs)).2 = (goldfish_fetch resolve docs).2 := by
  refine ⟨rfl, ?_, ?_⟩
  · simp [goldfish_fetch, scrape]
  · simp only [goldfish_fetch, scrape]
    cases h : (goldfish_fetch resolve docs).2 with
    | error e => simp [collect_rows, h]
    | ok l => simp [collect_rows, h]

/-- Claim C8: name normalization maps "Lorien Revealed" and "Lórien Revealed"
to the same canonical name, and trims "Fire // Ice" to "Fire" at the first
`/`, discarding surrounding whitespace. -/
theorem c8_name_normalization :
    cnameFrom "Lorien Revealed" = "Lórien Revealed"
      ∧ cnameFrom "Lórien Revealed" = "Lórien Revealed"
      ∧ trim_if_double_faced "Fire // Ice" = some "Fire" := by
  refine ⟨rfl, rfl, ?_⟩
  decide

/-- Claim C1 (amended): two sequential resolutions of the same key against
the printings resolver return identical values with at most one external
fetch, unconditionally (its cache key is the card's own id); the same holds
for the card-by-name resolver for every key whose fetched card is stored
back under the looked-up (normalized) name — which fails exactly when the
fetched card's front-face name differs from the key, see the
counterexample. -/
theorem c1_cache_aside_sequential (fetchP : Card → List Set) (card : Card)
    (pcache : List (Nat × List Set)) (fetchCard : String → Card) (name : String)
    (ccache : List (String × Card)) :
    ((getPrintingsTwice fetchP card pcache).1 = (getPrintingsTwice fetchP card pcache).2.1
      ∧ (getPrintingsTwice fetchP card pcache).2.2 ≤ 1)
    ∧ (cacheNameOf (fetchCard (get_cached.fix_lotr_accented_cards name)) =
          get_cached.fix_lotr_accented_cards name →
        (getCachedTwice fetchCard name ccache).1 = (getCachedTwice fetchCard name ccache).2.1
          ∧ (getCachedTwice fetchCard name ccache).2.2 ≤ 1) := by
  constructor
  · unfold getPrintingsTwice get_printings_cached
    cases h : lookupA pcache card.id with
    | some sets => simp [h]
    | none => simp [h, lookupA_insertA_self]
  · intro hkey
    unfold getCachedTwice get_cached
    cases h : lookupA ccache (get_cached.fix_lotr_accented_cards name) with
    | some c => simp [h]
    | none => simp [h, hkey, lookupA_insertA_self]

/-- Claim C1, witness: resolving "Opt" twice against an initially empty
cache, with an oracle whose answer is cached under the queried name, fetches
exactly once and both resolutions agree; likewise for the printings
resolver. -/
theorem c1_cache_aside_sequential_witness :
    ((getPrintingsTwice (fun _ => []) optCard []).1 =
        (getPrintingsTwice (fun _ => []) optCard []).2.1
      ∧ (getPrintingsTwice (fun _ => []) optCard []).2.2 ≤ 1)
    ∧ ((getCachedTwice plainFetch "Opt" []).1 = (getCachedTwice plainFetch "Opt" []).2.1
      ∧ (getCachedTwice plainFetch "Opt" []).2.2 ≤ 1) :=
  ⟨(c1_cache_aside_sequential (fun _ => []) optCard [] plainFetch "Opt" []).1,
    (c1_cache_aside_sequential (fun _ => []) optCard [] plainFetch "Opt" []).2
      (by decide)⟩

/-- Claim C1, counterexample to the unamended claim: the key
"Fire // Ice" misses, the fetched split card is stored under its front-face
name "Fire", so the second sequential resolution of the very same key misses
again and fetches again — two external fetches for one key, refuting
"at most one external fetch" as stated. -/
theorem c1_cache_aside_counterexample :
    ¬ ((getCachedTwice fireIceFetch "Fire // Ice" []).2.2 ≤ 1) := by
  decide

/-- Claim C10: `add_version` appends the code and returns the previous count
plus one; `remove_version` removes exactly the first occurrence of the code
when it is owned (returning the resulting count), and otherwise leaves the
owned versions unchanged and returns the unchanged count. -/
theorem positionEq_first_split (c : String) (p q : List String) (hp : c ∉ p) :
    positionEq c (p ++ c :: q) = some p.length := by
  induction p with
  | nil => simp [positionEq]
  | cons y ys ih =>
    rw [List.mem_cons, not_or] at hp
    have hy : ¬ y = c := fun h => hp.1 h.symm
    simp [positionEq, hy, ih hp.2]

theorem eraseIdx_first_split (c : String) (p q : List String) :
    (p ++ c :: q).eraseIdx p.length = p ++ q := by
  induction p with
  | nil => simp
  | cons y ys ih => simp [List.eraseIdx, ih]

theorem exists_first_split (c : String) (v : List String) (hmem : c ∈ v) :
    ∃ p q, v = p ++ c :: q ∧ c ∉ p := by
  induction v with
  | nil => cases hmem
  | cons x xs ih =>
    by_cases hx : x = c
    · exact ⟨[], xs, by simp [hx], by simp⟩
    · have hmem' : c ∈ xs := by
        cases List.mem_cons.mp hmem with
        | inl h => exact absurd h.symm hx
        | inr h => exact h
      obtain ⟨p, q, hv, hp⟩ := ih hmem'
      refine ⟨x :: p, q, by simp [hv], ?_⟩
      rw [List.mem_cons, not_or]
      exact ⟨fun h => hx h.symm, hp⟩

theorem positionEq_eq_none (c : String) (v : List String) (hmem : c ∉ v) :
    positionEq c v = none := by
  induction v with
  | nil => rfl
  | cons x xs ih =>
    rw [List.mem_cons, not_or] at hmem
    have hx : ¬ x = c := fun h => hmem.1 h.symm
    simp [positionEq, hx, ih hmem.2]

/-- Claim C10: `add_version` appends the code and returns the previous count
plus one; `remove_version` removes exactly the first occurrence of the code
when it is owned (returning the resulting count), and otherwise leaves the
owned versions unchanged and returns the unchanged count. -/
theorem c10_add_remove_version (v : List String) (c : String) :
    add_version v c = (v ++ [c], v.length + 1)
    ∧ (c ∈ v → ∃ p q, v = p ++ c :: q ∧ c ∉ p
        ∧ remove_version v c = (p ++ q, p.length + q.length))
    ∧ (c ∉ v → remove_version v c = (v, v.length)) := by
  refine ⟨by simp [add_version], ?_, ?_⟩
  · intro hmem
    obtain ⟨p, q, hv, hp⟩ := exists_first_split c v hmem
    subst hv
    exact ⟨p, q, rfl, hp, by
      simp [remove_version, positionEq_first_split c p q hp, eraseIdx_first_split]⟩
  · intro hmem
    simp [remove_version, positionEq_eq_none c v hmem]

/-- Claim C10, witness: on the concrete owned list ["lea", "m10", "lea"],
adding "4ed" yields count 4, removing the owned code "lea" removes only its
first occurrence and yields count 2, and removing the unowned code "unh"
leaves the list unchanged at count 3. -/
theorem c10_add_remove_version_witness :
    add_version ["lea", "m10", "lea"] "4ed" = (["lea", "m10", "lea", "4ed"], 4)
    ∧ remove_version ["lea", "m10", "lea"] "lea" = (["m10", "lea"], 2)
    ∧ remove_version ["lea", "m10", "lea"] "unh" = (["lea", "m10", "lea"], 3) := by
  refine ⟨(c10_add_remove_version ["lea", "m10", "lea"] "4ed").1, ?_, ?_⟩
  · obtain ⟨p, q, hv, hp, hrm⟩ :=
      (c10_add_remove_version ["lea", "m10", "lea"] "lea").2.1 (by decide)
    have hp0 : p = [] := by
      cases p with
      | nil => rfl
      | cons y ys =>
        have : "lea" = y := by simpa using congrArg (List.headD · "") hv
        rw [List.mem_cons, not_or] at hp
        exact absurd this hp.1
    subst hp0
    have hq : ["m10", "lea"] = q := by simpa using hv
    subst hq
    simpa using hrm
  · exact (c10_add_remove_version ["lea", "m10", "lea"] "unh").2.2 (by decide)

end Xander
